import Mathlib

/-!
Verification of the Firewalla identity-enforcement and docker-VPN-client core.

This file shallowly embeds the relevant operations of
`src/net2/Identity.js` and
`src/extension/vpnclient/docker/DockerBaseVPNClient.js` as executable Lean
definitions and proves (or refutes) the specified properties about them.

Modelling conventions:
* JavaScript strings that are only compared for equality are modelled as
  Lean `String`; IP-address strings whose characters matter (suffix
  stripping, sorting) are modelled as `List Char`.
* External side-effecting resources (ipsets, iptables rules, the redis
  registry, timers) are modelled as explicit state, and the commands
  issued to them as explicit event lists.
* Failure of an external call is injected through an explicit oracle; a
  failure the source catches (`.catch(...)`) leaves the resource
  unchanged and execution continues, a failure the source does not catch
  aborts the remainder of the operation.
-/

/-! ### Enforcement set naming (src/net2/Identity.js, getEnforcementIPsetName)

The source is a static method whose namespace comes from
`this.getNamespace()`; the namespace is passed explicitly here.
JS `uid.substring(0, 12)` is `String.take uid 12`.
-/

def getEnforcementIPsetName (ns uid : String) (af : Nat := 4) : String :=
  "c_" ++ ns ++ "_" ++ uid.take 12 ++ "_set" ++ (if af = 4 then "" else "6")

/-- C9: the enforcement set names depend only on the namespace and the first
12 characters of the unique id, with the IPv6 name being the IPv4 name with
"6" appended; hence two unique ids sharing their first 12 characters map to
the identical set pair. -/
theorem enforcementIPsetName_first12 (ns u1 u2 : String)
    (h : u1.take 12 = u2.take 12) :
    (∀ af, getEnforcementIPsetName ns u1 af = getEnforcementIPsetName ns u2 af)
    ∧ (∀ uid, getEnforcementIPsetName ns uid 6
        = getEnforcementIPsetName ns uid 4 ++ "6") := by
  constructor
  · intro af
    simp only [getEnforcementIPsetName, h]
  · intro uid
    simp [getEnforcementIPsetName, String.append_assoc]

theorem enforcementIPsetName_first12_witness :
    "abcdefghijklAAA".take 12 = "abcdefghijklBBB".take 12
    ∧ ((∀ af, getEnforcementIPsetName "wg" "abcdefghijklAAA" af
          = getEnforcementIPsetName "wg" "abcdefghijklBBB" af)
      ∧ (∀ uid, getEnforcementIPsetName "wg" uid 6
          = getEnforcementIPsetName "wg" uid 4 ++ "6")) :=
  ⟨by decide, enforcementIPsetName_first12 "wg" "abcdefghijklAAA" "abcdefghijklBBB" (by decide)⟩

/-! ### Identity enforcement environment creation
(src/net2/Identity.js, ensureCreateEnforcementEnv)

State components touched by the operation: the dnsmasq config files (path
to content), the process-lifetime `envCreatedMap` marking, and the set of
existing ipsets.  The commands issued to the outside world are returned as
an event list.  `-!` makes ipset creation idempotent, hence set creation is
modelled with `List.insert`.
-/

def getRedisSetName (ns uid : String) : String :=
  ns ++ ":addresses:" ++ uid

def getEnforcementDnsmasqGroupId (ns uid : String) : String :=
  ns ++ "_" ++ uid

/-- Source name: getDnsmasqConfigFilenamePrefix. -/
def getDnsmasqConfigFilenameStem (ns uid : String) : String :=
  ns ++ "_" ++ uid

inductive EnvCmd
  | writeFile (path content : String)
  | restartDNS
  | createSet (name : String) (inet6 : Bool)
deriving DecidableEq

structure EnvState where
  files : List (String × String)
  created : List String
  sets : List String
deriving DecidableEq

/-- Overwriting file write: replace the content at an existing path,
otherwise append the new file. -/
def upsert (l : List (String × String)) (k v : String) : List (String × String) :=
  match l with
  | [] => [(k, v)]
  | (k', v') :: rest => if k' = k then (k, v) :: rest else (k', v') :: upsert rest k v

theorem upsert_upsert (l : List (String × String)) (k v : String) :
    upsert (upsert l k v) k v = upsert l k v := by
  induction l with
  | nil => simp [upsert]
  | cons hd tl ih =>
    obtain ⟨k', v'⟩ := hd
    by_cases h : k' = k
    · subst h
      simp [upsert]
    · simp [upsert, h, ih]

def ensureCreateEnforcementEnv (configDir ns uid : String) (st : EnvState) :
    EnvState × List EnvCmd :=
  let content := "redis-src-address-group=%" ++ getRedisSetName ns uid
    ++ "@" ++ getEnforcementDnsmasqGroupId ns uid
  let path := configDir ++ "/" ++ getDnsmasqConfigFilenameStem ns uid ++ ".conf"
  let st1 : EnvState := { st with files := upsert st.files path content }
  let baseCmds := [EnvCmd.writeFile path content, EnvCmd.restartDNS]
  let instanceKey := ns ++ ":" ++ uid
  if instanceKey ∈ st1.created then
    (st1, baseCmds)
  else
    let n4 := getEnforcementIPsetName ns uid 4
    let n6 := getEnforcementIPsetName ns uid 6
    ({ st1 with
        sets := List.insert n6 (List.insert n4 st1.sets),
        created := instanceKey :: st1.created },
      baseCmds ++ [EnvCmd.createSet n4 false, EnvCmd.createSet n6 true])

/-- C6: calling ensureCreateEnforcementEnv twice with the same uid produces
the same final set/file state as calling it once, and the second call issues
no set-creation commands (the "environment created" marking guards set
creation). -/
theorem ensureCreateEnforcementEnv_idem (configDir ns uid : String) (st : EnvState) :
    (ensureCreateEnforcementEnv configDir ns uid
        (ensureCreateEnforcementEnv configDir ns uid st).1).1
      = (ensureCreateEnforcementEnv configDir ns uid st).1
    ∧ ∀ n b, EnvCmd.createSet n b ∉
        (ensureCreateEnforcementEnv configDir ns uid
          (ensureCreateEnforcementEnv configDir ns uid st).1).2 := by
  by_cases h : (ns ++ ":" ++ uid) ∈ st.created
  · simp only [ensureCreateEnforcementEnv, h, if_true]
    constructor
    · simp [upsert_upsert]
    · intro n b
      simp
  · simp only [ensureCreateEnforcementEnv, h, if_false]
    have h2 : (ns ++ ":" ++ uid) ∈ (ns ++ ":" ++ uid) :: st.created := List.mem_cons_self _ _
    simp only [h2, if_true]
    constructor
    · simp [upsert_upsert]
    · intro n b
      simp

theorem ensureCreateEnforcementEnv_idem_witness :
    (ensureCreateEnforcementEnv "/cfg" "wg" "u1"
        (ensureCreateEnforcementEnv "/cfg" "wg" "u1" ⟨[], [], []⟩).1).1
      = (ensureCreateEnforcementEnv "/cfg" "wg" "u1" ⟨[], [], []⟩).1
    ∧ ∀ n b, EnvCmd.createSet n b ∉
        (ensureCreateEnforcementEnv "/cfg" "wg" "u1"
          (ensureCreateEnforcementEnv "/cfg" "wg" "u1" ⟨[], [], []⟩).1).2 :=
  ensureCreateEnforcementEnv_idem "/cfg" "wg" "u1" ⟨[], [], []⟩

/-! ### VPN client rule state machine (src/net2/Identity.js, vpnClient)

A rule's identity for presence purposes is its family, its variant
(the "active" variant jumps to the profile's route ipset via
`VPNClient.getRouteIpsetName(profileId)`, the "neutralized" variant jumps
to the static `MARK --set-xmark 0x0000/MASK_VC` action, which mentions no
profile), the identity's match-set and the comment tag.  Since this model
tracks a single identity, the match-set and comment are fixed and a rule
key is the variant (with the profile id for the active variant, the route
ipset name being injective in the profile id) and the family.

`this._profileId` is a JS string where the empty string and undefined are
both falsy; it is modelled as a `String` with "" = unset.  `policy.state`
is strictly compared against `true`, `null` and `false`; any other value
takes none of the three branches and is modelled as `vother`.

The call is modelled as the ordered list of iptables insert/delete
operations it issues (`vpnClientOps`), and its effect on the presence set
of rules as the fold of those operations (`vpnClientApply`).
-/

inductive Fam | v4 | v6
deriving DecidableEq

inductive RuleKey
  | active (profileId : String) (fam : Fam)
  | neutral (fam : Fam)
deriving DecidableEq

inductive RuleOp
  | addR (r : RuleKey)
  | delR (r : RuleKey)
deriving DecidableEq

inductive VCVal | vtrue | vfalse | vnull | vother
deriving DecidableEq

structure VCPolicy where
  state : VCVal
  profileId : String

structure VCState where
  rules : Finset RuleKey
  profileId : String

/-- Migration guard (lines 319-342): both variants of the previous
profile's rule are deleted for both families. -/
def migrationOps (prev : String) : List RuleOp :=
  [.delR (.active prev .v4), .delR (.active prev .v6),
   .delR (.neutral .v4), .delR (.neutral .v6)]

/-- The per-state branch (lines 356-417). -/
def mainOps : VCVal → String → List RuleOp
  | .vtrue, pid =>
      [.addR (.active pid .v4), .addR (.active pid .v6),
       .delR (.neutral .v4), .delR (.neutral .v6)]
  | .vnull, pid =>
      [.delR (.active pid .v4), .delR (.active pid .v6),
       .addR (.neutral .v4), .addR (.neutral .v6)]
  | .vfalse, pid =>
      [.delR (.active pid .v4), .delR (.active pid .v6),
       .delR (.neutral .v4), .delR (.neutral .v6)]
  | .vother, _ => []

def vpnClientOps (prev : String) (p : VCPolicy) : List RuleOp :=
  (if prev ≠ "" ∧ p.profileId ≠ prev then migrationOps prev else [])
    ++ (if p.profileId = "" then [] else mainOps p.state p.profileId)

def applyRuleOp (s : Finset RuleKey) : RuleOp → Finset RuleKey
  | .addR r => insert r s
  | .delR r => s.erase r

def vpnClientApply (st : VCState) (p : VCPolicy) : VCState :=
  ⟨(vpnClientOps st.profileId p).foldl applyRuleOp st.rules, p.profileId⟩

/-- A fresh identity: no rules present, `this._profileId` unset. -/
def vpnClientRun (calls : List VCPolicy) : VCState :=
  calls.foldl vpnClientApply ⟨∅, ""⟩

/-- The rule set the claim expects after a call with the given state and
(non-empty) profile id. -/
def expectedRules : VCVal → String → Finset RuleKey
  | .vtrue, pid => {RuleKey.active pid .v4, RuleKey.active pid .v6}
  | .vnull, _ => {RuleKey.neutral .v4, RuleKey.neutral .v6}
  | _, _ => ∅

/-- Reachability invariant of the rule state. -/
def VCInv (st : VCState) : Prop :=
  st.rules = ∅
  ∨ st.rules = {RuleKey.neutral .v4, RuleKey.neutral .v6}
  ∨ (st.profileId ≠ ""
      ∧ st.rules = {RuleKey.active st.profileId .v4, RuleKey.active st.profileId .v6})

theorem vpnClientApply_rules (st : VCState) (p : VCPolicy)
    (hInv : VCInv st) (hpid : p.profileId ≠ "") (hs : p.state ≠ .vother) :
    (vpnClientApply st p).rules = expectedRules p.state p.profileId := by
  obtain ⟨R, prev⟩ := st
  obtain ⟨s, pid⟩ := p
  simp only [VCInv] at hInv
  simp only at hpid hs
  by_cases hpe : prev = ""
  · have hops : vpnClientOps prev ⟨s, pid⟩ = mainOps s pid := by
      simp [vpnClientOps, hpe, hpid]
    rcases hInv with h | h | ⟨hne, h⟩ <;> cases s <;>
      first
        | exact absurd rfl hs
        | exact absurd hpe hne
        | (subst h
           simp only [vpnClientApply, hops]
           ext r
           rcases r with ⟨rpid, rfam⟩ | rfam <;> cases rfam <;>
             simp_all [List.foldl, applyRuleOp, expectedRules, mainOps])
  · by_cases heq : pid = prev
    · have hops : vpnClientOps prev ⟨s, pid⟩ = mainOps s pid := by
        simp [vpnClientOps, heq, hpe, hpid]
      rcases hInv with h | h | ⟨hne, h⟩ <;> cases s <;>
        first
          | exact absurd rfl hs
          | (subst h
             simp only [vpnClientApply, hops]
             ext r
             rcases r with ⟨rpid, rfam⟩ | rfam <;> cases rfam <;>
               simp_all [List.foldl, applyRuleOp, expectedRules, mainOps])
    · have hops : vpnClientOps prev ⟨s, pid⟩ = migrationOps prev ++ mainOps s pid := by
        simp [vpnClientOps, hpe, heq, hpid]
      rcases hInv with h | h | ⟨hne, h⟩ <;> cases s <;>
        first
          | exact absurd rfl hs
          | (subst h
             simp only [vpnClientApply, hops]
             ext r
             rcases r with ⟨rpid, rfam⟩ | rfam <;> cases rfam <;>
               simp_all [List.foldl, applyRuleOp, expectedRules, migrationOps, mainOps])

theorem expectedRules_inv (s : VCVal) (pid : String) (hpid : pid ≠ "") :
    VCInv ⟨expectedRules s pid, pid⟩ := by
  cases s <;> simp [VCInv, expectedRules, hpid]

theorem vpnClientRun_inv (calls : List VCPolicy) :
    ∀ st : VCState, VCInv st →
      (∀ q ∈ calls, q.profileId ≠ "" ∧ q.state ≠ .vother) →
      VCInv (calls.foldl vpnClientApply st) := by
  induction calls with
  | nil => intro st h _; exact h
  | cons c rest ih =>
    intro st h hq
    simp only [List.foldl_cons]
    refine ih _ ?_ fun q hq2 => hq q (List.mem_cons_of_mem _ hq2)
    obtain ⟨hpid, hs⟩ := hq c (List.mem_cons_self _ _)
    have h2 := vpnClientApply_rules st c h hpid hs
    have h3 : vpnClientApply st c = ⟨expectedRules c.state c.profileId, c.profileId⟩ := by
      rw [← h2]; rfl
    rw [h3]
    exact expectedRules_inv c.state c.profileId hpid

/-- C1: for every sequence of vpnClient calls with non-empty profile ids and
states drawn from {true, false, null}, after each call at most one of the two
rule variants (active / neutralized) is present per IP family: state true
leaves the active rule present and the neutralized rule absent, state null
the converse, state false leaves both absent. -/
theorem vpnClient_rule_exclusivity (calls : List VCPolicy) (c : VCPolicy)
    (hq : ∀ q ∈ calls ++ [c], q.profileId ≠ "" ∧ q.state ≠ .vother) :
    ∀ fam : Fam,
      ¬(RuleKey.active c.profileId fam ∈ (vpnClientRun (calls ++ [c])).rules
          ∧ RuleKey.neutral fam ∈ (vpnClientRun (calls ++ [c])).rules)
      ∧ (c.state = .vtrue →
          RuleKey.active c.profileId fam ∈ (vpnClientRun (calls ++ [c])).rules
          ∧ RuleKey.neutral fam ∉ (vpnClientRun (calls ++ [c])).rules)
      ∧ (c.state = .vnull →
          RuleKey.neutral fam ∈ (vpnClientRun (calls ++ [c])).rules
          ∧ RuleKey.active c.profileId fam ∉ (vpnClientRun (calls ++ [c])).rules)
      ∧ (c.state = .vfalse →
          RuleKey.active c.profileId fam ∉ (vpnClientRun (calls ++ [c])).rules
          ∧ RuleKey.neutral fam ∉ (vpnClientRun (calls ++ [c])).rules) := by
  have hrun : vpnClientRun (calls ++ [c]) = vpnClientApply (vpnClientRun calls) c := by
    simp [vpnClientRun, List.foldl_append]
  obtain ⟨hpid, hs⟩ := hq c (by simp)
  have hInv : VCInv (vpnClientRun calls) := by
    refine vpnClientRun_inv calls ⟨∅, ""⟩ (Or.inl rfl) fun q hq2 => hq q ?_
    simp [hq2]
  have hrules : (vpnClientRun (calls ++ [c])).rules = expectedRules c.state c.profileId := by
    rw [hrun]
    exact vpnClientApply_rules _ c hInv hpid hs
  intro fam
  rw [hrules]
  cases hc : c.state <;> cases fam <;> simp_all [expectedRules]

theorem vpnClient_rule_exclusivity_witness :
    (∀ q ∈ [VCPolicy.mk .vtrue "p1"] ++ [VCPolicy.mk .vnull "p2"],
      q.profileId ≠ "" ∧ q.state ≠ .vother)
    ∧ ∀ fam : Fam,
      ¬(RuleKey.active "p2" fam
          ∈ (vpnClientRun ([VCPolicy.mk .vtrue "p1"] ++ [VCPolicy.mk .vnull "p2"])).rules
        ∧ RuleKey.neutral fam
          ∈ (vpnClientRun ([VCPolicy.mk .vtrue "p1"] ++ [VCPolicy.mk .vnull "p2"])).rules)
      ∧ (VCVal.vnull = .vtrue →
          RuleKey.active "p2" fam
            ∈ (vpnClientRun ([VCPolicy.mk .vtrue "p1"] ++ [VCPolicy.mk .vnull "p2"])).rules
          ∧ RuleKey.neutral fam
            ∉ (vpnClientRun ([VCPolicy.mk .vtrue "p1"] ++ [VCPolicy.mk .vnull "p2"])).rules)
      ∧ (VCVal.vnull = .vnull →
          RuleKey.neutral fam
            ∈ (vpnClientRun ([VCPolicy.mk .vtrue "p1"] ++ [VCPolicy.mk .vnull "p2"])).rules
          ∧ RuleKey.active "p2" fam
            ∉ (vpnClientRun ([VCPolicy.mk .vtrue "p1"] ++ [VCPolicy.mk .vnull "p2"])).rules)
      ∧ (VCVal.vnull = .vfalse →
          RuleKey.active "p2" fam
            ∉ (vpnClientRun ([VCPolicy.mk .vtrue "p1"] ++ [VCPolicy.mk .vnull "p2"])).rules
          ∧ RuleKey.neutral fam
            ∉ (vpnClientRun ([VCPolicy.mk .vtrue "p1"] ++ [VCPolicy.mk .vnull "p2"])).rules) :=
  ⟨by decide, vpnClient_rule_exclusivity [VCPolicy.mk .vtrue "p1"] (VCPolicy.mk .vnull "p2")
    (by decide)⟩

/-- C2: when a previous profile id exists and differs from the requested one,
the call removes both rule variants of the previous profile for both IP
families first, and every rule insertion of the call happens after those
four removals. -/
theorem vpnClient_migration_removes_before_insert (prev : String) (p : VCPolicy)
    (hprev : prev ≠ "") (hdiff : p.profileId ≠ prev) :
    ∃ rest,
      vpnClientOps prev p
        = RuleOp.delR (RuleKey.active prev .v4) :: RuleOp.delR (RuleKey.active prev .v6)
          :: RuleOp.delR (RuleKey.neutral .v4) :: RuleOp.delR (RuleKey.neutral .v6) :: rest
      ∧ ∀ r : RuleKey, RuleOp.addR r ∈ vpnClientOps prev p → RuleOp.addR r ∈ rest := by
  refine ⟨if p.profileId = "" then [] else mainOps p.state p.profileId, ?_, ?_⟩
  · simp [vpnClientOps, migrationOps, hprev, hdiff]
  · intro r hr
    simp only [vpnClientOps, migrationOps, hprev, hdiff, ne_eq, not_false_iff, and_self,
      if_true, List.mem_append] at hr
    rcases hr with hr | hr
    · simp at hr
    · exact hr

theorem vpnClient_migration_removes_before_insert_witness :
    ∃ rest,
      vpnClientOps "p1" (VCPolicy.mk .vtrue "p2")
        = RuleOp.delR (RuleKey.active "p1" .v4) :: RuleOp.delR (RuleKey.active "p1" .v6)
          :: RuleOp.delR (RuleKey.neutral .v4) :: RuleOp.delR (RuleKey.neutral .v6) :: rest
      ∧ ∀ r : RuleKey, RuleOp.addR r ∈ vpnClientOps "p1" (VCPolicy.mk .vtrue "p2")
          → RuleOp.addR r ∈ rest :=
  vpnClient_migration_removes_before_insert "p1" (VCPolicy.mk .vtrue "p2")
    (by decide) (by decide)

/-! ### updateIPs (src/net2/Identity.js, updateIPs / getIPs)

IP-address strings are modelled as `List Char` (`Str`).  JS arrays are
mutable objects: the heap maps an array reference (a `Nat` index) to its
current contents, and `this._ips` stores a *reference*, not a copy.

JS `Array.prototype.sort()` sorts in place by code-unit lexicographic
order and is stable; it is modelled by a stable insertion sort under the
lexicographic order on `List Char` (`jsSort`).  Only two facts about the
order are used by any theorem: sorting permutes the list, and equal
multisets sort equally is never needed.

`_.isEqual(ips.sort(), this._ips.sort())` first sorts the argument array
in place, then sorts the stored array in place, then compares contents.
Note the short-circuit: when `this._ips` is unset nothing is sorted.

The external calls, in source order, are: ipset flush (v4), ipset flush
(v6) and a batched ipset add — all with `.catch`, so a failure leaves the
resource unchanged and the call continues — and redis `smembers`, `srem`,
`sadd` — without `.catch`, so a rejection aborts the rest of the call
(in particular `this._ips = ips` is skipped).  `FailOracle` says which of
those succeed.
-/

abbrev Str := List Char

abbrev Heap := List (List Str)

/-- JS `(ip.endsWith("/32") || ip.endsWith("/128")) ? ip.split("/")[0] : ip`;
for the single-character separator, `split("/")[0]` is the longest
slash-free prefix of the string. -/
def stripHostSuffix (ip : Str) : Str :=
  if ['/', '3', '2'].isSuffixOf ip || ['/', '1', '2', '8'].isSuffixOf ip then
    ip.takeWhile (fun c => c ≠ '/')
  else ip

def strLt : Str → Str → Bool
  | [], [] => false
  | [], _ :: _ => true
  | _ :: _, [] => false
  | a :: as, b :: bs => if a < b then true else if b < a then false else strLt as bs

def strLe (a b : Str) : Bool := !(strLt b a)

def insertionSort (x : Str) : List Str → List Str
  | [] => [x]
  | y :: ys => if strLe x y then x :: y :: ys else y :: insertionSort x ys

def jsSort : List Str → List Str
  | [] => []
  | x :: xs => insertionSort x (jsSort xs)

theorem insertionSort_perm (x : Str) (l : List Str) :
    (insertionSort x l).Perm (x :: l) := by
  induction l with
  | nil => rfl
  | cons y ys ih =>
    simp only [insertionSort]
    split
    · rfl
    · exact (ih.cons y).trans (List.Perm.swap x y ys)

theorem jsSort_perm (l : List Str) : (jsSort l).Perm l := by
  induction l with
  | nil => rfl
  | cons x xs ih => exact (insertionSort_perm x (jsSort xs)).trans (ih.cons x)

structure UpdState where
  ips : Option Nat
  v4set : Finset Str
  v6set : Finset Str
  registry : Finset Str
deriving DecidableEq

structure FailOracle where
  flush4Ok : Bool
  flush6Ok : Bool
  batchOk : Bool
  smembersOk : Bool
  sremOk : Bool
  saddOk : Bool
deriving DecidableEq

def allOk : FailOracle := ⟨true, true, true, true, true, true⟩

structure UpdResult where
  st : UpdState
  heap : Heap
  skipped : Bool
  completed : Bool
deriving DecidableEq

def updateIPsBody (isV4 isV6 : Str → Bool) (o : FailOracle) (st : UpdState)
    (heap : Heap) (ref : Nat) : UpdResult :=
  let ips := heap.getD ref []
  let v4f := if o.flush4Ok then (∅ : Finset Str) else st.v4set
  let v6f := if o.flush6Ok then (∅ : Finset Str) else st.v6set
  let v4p := if o.batchOk then v4f ∪ (ips.filter isV4).toFinset else v4f
  let v6p := if o.batchOk then
      v6f ∪ (ips.filter (fun ip => !isV4 ip && isV6 ip)).toFinset
    else v6f
  let st1 : UpdState := { st with v4set := v4p, v6set := v6p }
  if o.smembersOk = false then ⟨st1, heap, false, false⟩
  else
    let currentIPs := st1.registry
    let removedIPs := currentIPs.filter (fun ip => ip ∉ ips)
    let newIPs := (ips.filter (fun ip => ip ∉ currentIPs)).map stripHostSuffix
    if removedIPs ≠ ∅ ∧ o.sremOk = false then ⟨st1, heap, false, false⟩
    else
      let st2 := if removedIPs ≠ ∅ then
          { st1 with registry := st1.registry \ removedIPs }
        else st1
      if newIPs ≠ [] ∧ o.saddOk = false then ⟨st2, heap, false, false⟩
      else
        let st3 := if newIPs ≠ [] then
            { st2 with registry := st2.registry ∪ newIPs.toFinset }
          else st2
        ⟨{ st3 with ips := some ref }, heap, false, true⟩

def updateIPs (isV4 isV6 : Str → Bool) (o : FailOracle) (st : UpdState)
    (heap : Heap) (ref : Nat) : UpdResult :=
  match st.ips with
  | none => updateIPsBody isV4 isV6 o st heap ref
  | some prevRef =>
    let heap1 := heap.set ref (jsSort (heap.getD ref []))
    let heap2 := heap1.set prevRef (jsSort (heap1.getD prevRef []))
    if heap2.getD ref [] = heap2.getD prevRef [] then
      ⟨st, heap2, true, true⟩
    else
      updateIPsBody isV4 isV6 o st heap2 ref

def getIPs (st : UpdState) (heap : Heap) : List Str :=
  match st.ips with
  | some r => heap.getD r []
  | none => []

def freshUpd : UpdState := ⟨none, ∅, ∅, ∅⟩

theorem no_slash_suffixOf_takeWhile (l s : Str) (hs : '/' ∈ s) :
    s.isSuffixOf (l.takeWhile (fun c => c ≠ '/')) = false := by
  cases hsf : s.isSuffixOf (l.takeWhile (fun c => c ≠ '/')) with
  | false => rfl
  | true =>
    exfalso
    have h1 : '/' ∈ l.takeWhile (fun c => c ≠ '/') :=
      (List.isSuffixOf_iff_suffix.mp hsf).subset hs
    have h2 := List.mem_takeWhile_imp h1
    simp at h2

theorem stripHostSuffix_idem (ip : Str) :
    stripHostSuffix (stripHostSuffix ip) = stripHostSuffix ip := by
  by_cases h : (['/', '3', '2'].isSuffixOf ip || ['/', '1', '2', '8'].isSuffixOf ip) = true
  · have hs : stripHostSuffix ip = ip.takeWhile (fun c => c ≠ '/') := by
      rw [stripHostSuffix, if_pos h]
    have hc : ¬((['/', '3', '2'].isSuffixOf (ip.takeWhile (fun c => c ≠ '/'))
        || ['/', '1', '2', '8'].isSuffixOf (ip.takeWhile (fun c => c ≠ '/'))) = true) := by
      rw [no_slash_suffixOf_takeWhile ip ['/', '3', '2'] (by simp),
        no_slash_suffixOf_takeWhile ip ['/', '1', '2', '8'] (by simp)]
      simp
    rw [hs, stripHostSuffix, if_neg hc]
  · have hs : stripHostSuffix ip = ip := by
      rw [stripHostSuffix, if_neg h]
    rw [hs, hs]

theorem mem_strip_image {A : List Str} {x : Str}
    (hx : x ∈ (A.map stripHostSuffix).toFinset) : stripHostSuffix x = x := by
  simp only [List.mem_toFinset, List.mem_map] at hx
  obtain ⟨a, _, rfl⟩ := hx
  exact stripHostSuffix_idem a

theorem registry_sdiff_eq (R : Finset Str) (ips : List Str) :
    R \ R.filter (fun ip => ip ∉ ips) = R.filter (fun ip => ip ∈ ips) := by
  ext x
  simp only [Finset.mem_sdiff, Finset.mem_filter]
  tauto

theorem registry_all_kept (R : Finset Str) (ips : List Str)
    (h : R.filter (fun ip => ip ∉ ips) = ∅) :
    R.filter (fun ip => ip ∈ ips) = R := by
  rw [Finset.filter_eq_self]
  intro x hx
  have h2 := Finset.filter_eq_empty_iff.mp h hx
  simpa using h2

/-- The effect of one failure-free pass of the flush/populate/reconcile body. -/
theorem updateIPsBody_allOk (isV4 isV6 : Str → Bool) (st : UpdState)
    (heap : Heap) (ref : Nat) :
    updateIPsBody isV4 isV6 allOk st heap ref =
      ⟨⟨some ref,
        ((heap.getD ref []).filter isV4).toFinset,
        ((heap.getD ref []).filter (fun ip => !isV4 ip && isV6 ip)).toFinset,
        st.registry.filter (fun ip => ip ∈ heap.getD ref [])
          ∪ (((heap.getD ref []).filter (fun ip => ip ∉ st.registry)).map
              stripHostSuffix).toFinset⟩,
       heap, false, true⟩ := by
  simp only [updateIPsBody]
  simp only [show allOk.flush4Ok = true from rfl, show allOk.flush6Ok = true from rfl,
    show allOk.batchOk = true from rfl, show allOk.smembersOk = true from rfl,
    show allOk.sremOk = true from rfl, show allOk.saddOk = true from rfl,
    show ((true : Bool) = false) = False from by simp,
    show ((true : Bool) = true) = True from by simp]
  simp only [and_false, and_true, if_true, if_false, ite_true, ite_false]
  by_cases hrem : Finset.filter (fun ip => ip ∉ List.getD heap ref []) st.registry ≠ ∅ <;>
    by_cases hnew : List.map stripHostSuffix
        (List.filter (fun ip => decide (ip ∉ st.registry)) (List.getD heap ref [])) ≠ [] <;>
      simp only [hrem, hnew, ne_eq, if_true, if_false, ite_true, ite_false,
        eq_self_iff_true, not_true, not_false_iff, not_false_eq_true,
        Finset.empty_union, UpdResult.mk.injEq, UpdState.mk.injEq,
        and_true, true_and,
        show allOk.batchOk = true from rfl,
        show ((true : Bool) = true) = True from by simp]
  · rw [registry_sdiff_eq]
  · rw [registry_sdiff_eq, not_not.mp hnew, List.toFinset_nil, Finset.union_empty]
  · rw [registry_all_kept _ _ (not_not.mp hrem)]
  · rw [registry_all_kept _ _ (not_not.mp hrem), not_not.mp hnew, List.toFinset_nil,
      Finset.union_empty]

theorem registry_convergence_key (R : Finset Str) (C : List Str)
    (hR : ∀ x ∈ R, stripHostSuffix x = x) :
    R.filter (fun ip => ip ∈ C)
      ∪ ((C.filter (fun ip => ip ∉ R)).map stripHostSuffix).toFinset
      = (C.map stripHostSuffix).toFinset := by
  ext x
  simp only [Finset.mem_union, Finset.mem_filter, List.mem_toFinset, List.mem_map,
    List.mem_filter, decide_eq_true_eq]
  constructor
  · rintro (⟨hxR, hxC⟩ | ⟨b, ⟨hbC, hbR⟩, rfl⟩)
    · exact ⟨x, hxC, hR x hxR⟩
    · exact ⟨b, hbC, rfl⟩
  · rintro ⟨b, hbC, rfl⟩
    by_cases hbR : b ∈ R
    · left
      rw [hR b hbR]
      exact ⟨hbR, hbC⟩
    · right
      exact ⟨b, ⟨hbC, hbR⟩, rfl⟩

theorem mem_strip_image' (A : List Str) :
    ∀ x ∈ (A.map stripHostSuffix).toFinset, stripHostSuffix x = x :=
  fun _ hx => mem_strip_image hx

/-- Two successive calls of updateIPs on a fresh identity, with the caller's
arrays A then B living at heap references 0 and 1. -/
def updateIPsTwice (isV4 isV6 : Str → Bool) (A B : List Str) : UpdResult :=
  updateIPs isV4 isV6 allOk (updateIPs isV4 isV6 allOk freshUpd [A, B] 0).st
    (updateIPs isV4 isV6 allOk freshUpd [A, B] 0).heap 1

/-- C3: after updateIPs is called with A then B, the persisted registry
equals B with /32 and /128 host suffixes stripped and deduplicated, the two
family sets hold exactly the valid addresses of B partitioned by family, for
all orderings of A and B; and the flush/repopulate work is skipped on the
second call only when B equals A as an order-insensitive set. -/
theorem updateIPs_ipset_convergence (isV4 isV6 : Str → Bool) (A B : List Str) :
    (updateIPsTwice isV4 isV6 A B).st.registry = (B.map stripHostSuffix).toFinset
    ∧ (updateIPsTwice isV4 isV6 A B).st.v4set = (B.filter isV4).toFinset
    ∧ (updateIPsTwice isV4 isV6 A B).st.v6set
        = (B.filter (fun ip => !isV4 ip && isV6 ip)).toFinset
    ∧ ((updateIPsTwice isV4 isV6 A B).skipped = true → B.toFinset = A.toFinset) := by
  have hfirst : updateIPs isV4 isV6 allOk freshUpd [A, B] 0
      = ⟨⟨some 0, (A.filter isV4).toFinset,
          (A.filter (fun ip => !isV4 ip && isV6 ip)).toFinset,
          (A.map stripHostSuffix).toFinset⟩, [A, B], false, true⟩ := by
    have h0 : updateIPs isV4 isV6 allOk freshUpd [A, B] 0
        = updateIPsBody isV4 isV6 allOk freshUpd [A, B] 0 := rfl
    rw [h0, updateIPsBody_allOk]
    have hA : ([A, B] : Heap).getD 0 [] = A := rfl
    rw [hA]
    simp [freshUpd]
  have hsnd : updateIPsTwice isV4 isV6 A B
      = if jsSort B = jsSort A then
          ⟨⟨some 0, (A.filter isV4).toFinset,
            (A.filter (fun ip => !isV4 ip && isV6 ip)).toFinset,
            (A.map stripHostSuffix).toFinset⟩, [jsSort A, jsSort B], true, true⟩
        else
          updateIPsBody isV4 isV6 allOk
            ⟨some 0, (A.filter isV4).toFinset,
              (A.filter (fun ip => !isV4 ip && isV6 ip)).toFinset,
              (A.map stripHostSuffix).toFinset⟩
            [jsSort A, jsSort B] 1 := by
    rw [updateIPsTwice, hfirst]
    rfl
  by_cases hsort : jsSort B = jsSort A
  · have hBA : B.Perm A := ((jsSort_perm B).symm.trans (hsort ▸ jsSort_perm A))
    rw [hsnd, if_pos hsort]
    refine ⟨?_, ?_, ?_, fun _ => List.toFinset_eq_of_perm _ _ hBA⟩
    · exact (List.toFinset_eq_of_perm _ _ ((hBA.map stripHostSuffix))).symm
    · exact (List.toFinset_eq_of_perm _ _ (hBA.filter _)).symm
    · exact (List.toFinset_eq_of_perm _ _ (hBA.filter _)).symm
  · have hB' : (jsSort B).Perm B := jsSort_perm B
    rw [hsnd, if_neg hsort, updateIPsBody_allOk]
    have hg : ([jsSort A, jsSort B] : Heap).getD 1 [] = jsSort B := rfl
    rw [hg]
    refine ⟨?_, ?_, ?_, fun h => by simp at h⟩
    · rw [registry_convergence_key _ _ (mem_strip_image' A)]
      exact List.toFinset_eq_of_perm _ _ (hB'.map stripHostSuffix)
    · exact List.toFinset_eq_of_perm _ _ (hB'.filter _)
    · exact List.toFinset_eq_of_perm _ _ (hB'.filter _)

theorem updateIPs_ipset_convergence_witness :
    (updateIPsTwice (fun s => s = ['4']) (fun s => s = ['6']) [['4'], ['6']]
        [['6']]).st.registry = ([['6']].map stripHostSuffix).toFinset
    ∧ (updateIPsTwice (fun s => s = ['4']) (fun s => s = ['6']) [['4'], ['6']]
        [['6']]).st.v4set = ([['6']].filter (fun s => s = ['4'])).toFinset
    ∧ (updateIPsTwice (fun s => s = ['4']) (fun s => s = ['6']) [['4'], ['6']]
        [['6']]).st.v6set
        = ([['6']].filter (fun ip => !(ip = ['4'] : Bool) && (ip = ['6'] : Bool))).toFinset
    ∧ ((updateIPsTwice (fun s => s = ['4']) (fun s => s = ['6']) [['4'], ['6']]
        [['6']]).skipped = true → ([['6']] : List Str).toFinset = [['4'], ['6']].toFinset) :=
  updateIPs_ipset_convergence (fun s => s = ['4']) (fun s => s = ['6']) [['4'], ['6']] [['6']]

/-- Oracle failing only the redis sadd call (which the source does not
guard with a .catch). -/
def failSadd : FailOracle := ⟨true, true, true, true, true, false⟩

/-- C7 counterexample: on a fresh identity, a call that does not take the
no-change early return (skipped = false) but whose persisted-registry sadd
operation fails leaves the in-memory last-applied list (_ips) unset: the
uncaught redis rejection aborts the call before `this._ips = ips` runs. -/
theorem updateIPs_registry_failure_drops_ips_assignment :
    (updateIPs (fun _ => true) (fun _ => false) failSadd freshUpd [[['a']]] 0).skipped
      = false
    ∧ (updateIPs (fun _ => true) (fun _ => false) failSadd freshUpd [[['a']]] 0).st.ips
      = none
    ∧ (updateIPs (fun _ => true) (fun _ => false) failSadd freshUpd [[['a']]] 0).completed
      = false := by
  decide

/-- C7 amended: the in-memory last-applied list (_ips) is set to the new
list at the end of every non-skipped call even if the ipset flush or the
batched ipset population failed (those failures are caught), but only
provided the redis registry operations (smembers/srem/sadd) did not fail;
a redis failure aborts the call with _ips unchanged. -/
theorem updateIPs_ips_assignment_amended (isV4 isV6 : Str → Bool) (o : FailOracle)
    (st : UpdState) (heap : Heap) (ref : Nat)
    (hsm : o.smembersOk = true) (hsr : o.sremOk = true) (hsa : o.saddOk = true) :
    (updateIPs isV4 isV6 o st heap ref).skipped = false →
      (updateIPs isV4 isV6 o st heap ref).st.ips = some ref := by
  have hbody : ∀ hp : Heap,
      (updateIPsBody isV4 isV6 o st hp ref).st.ips = some ref := by
    intro hp
    simp only [updateIPsBody, hsm, hsr, hsa]
    simp only [show ((true : Bool) = false) = False from by simp, and_false, if_false,
      ite_false, if_neg, not_false_iff]
  rw [updateIPs]
  match hst : st.ips with
  | none =>
    intro _
    exact hbody heap
  | some prevRef =>
    simp only []
    split_ifs with hskip
    · intro hcon
      simp at hcon
    · intro _
      exact hbody _

theorem updateIPs_ips_assignment_amended_witness :
    allOk.smembersOk = true ∧ allOk.sremOk = true ∧ allOk.saddOk = true
    ∧ ((updateIPs (fun _ => true) (fun _ => false) allOk freshUpd [[['a']]] 0).skipped
          = false →
        (updateIPs (fun _ => true) (fun _ => false) allOk freshUpd [[['a']]] 0).st.ips
          = some 0) :=
  ⟨rfl, rfl, rfl,
    updateIPs_ips_assignment_amended (fun _ => true) (fun _ => false) allOk freshUpd
      [[['a']]] 0 rfl rfl rfl⟩

/-- C10: with a previously applied array at reference 0 and the caller's
argument array at reference 1, updateIPs sorts the caller's argument array
in place (the heap cell at the argument's reference afterwards holds the
sorted contents) before comparing; when the call completes without taking
the early return, the identity's _ips field holds the argument's reference
itself (not a copy), and getIPs dereferences exactly that heap cell; getIPs
on an identity on which updateIPs has never completed returns the empty
list. -/
theorem updateIPs_stores_reference (isV4 isV6 : Str → Bool) (P A : List Str)
    (v4 v6 reg : Finset Str) :
    (updateIPs isV4 isV6 allOk ⟨some 0, v4, v6, reg⟩ [P, A] 1).heap.getD 1 []
      = jsSort A
    ∧ ((updateIPs isV4 isV6 allOk ⟨some 0, v4, v6, reg⟩ [P, A] 1).skipped = false →
        (updateIPs isV4 isV6 allOk ⟨some 0, v4, v6, reg⟩ [P, A] 1).st.ips = some 1
        ∧ getIPs (updateIPs isV4 isV6 allOk ⟨some 0, v4, v6, reg⟩ [P, A] 1).st
            (updateIPs isV4 isV6 allOk ⟨some 0, v4, v6, reg⟩ [P, A] 1).heap
          = (updateIPs isV4 isV6 allOk ⟨some 0, v4, v6, reg⟩ [P, A] 1).heap.getD 1 [])
    ∧ (∀ h : Heap, getIPs freshUpd h = []) := by
  have hstep : updateIPs isV4 isV6 allOk ⟨some 0, v4, v6, reg⟩ [P, A] 1
      = if jsSort A = jsSort P then
          ⟨⟨some 0, v4, v6, reg⟩, [jsSort P, jsSort A], true, true⟩
        else
          updateIPsBody isV4 isV6 allOk ⟨some 0, v4, v6, reg⟩ [jsSort P, jsSort A] 1 := by
    rw [updateIPs]
    rfl
  by_cases hsort : jsSort A = jsSort P
  · rw [hstep, if_pos hsort]
    exact ⟨rfl, fun hcon => by simp at hcon, fun h => rfl⟩
  · rw [hstep, if_neg hsort, updateIPsBody_allOk]
    exact ⟨rfl, fun _ => ⟨rfl, rfl⟩, fun h => rfl⟩

theorem updateIPs_stores_reference_witness :
    (updateIPs (fun _ => true) (fun _ => false) allOk ⟨some 0, ∅, ∅, ∅⟩
        [[['b']], [['a']]] 1).heap.getD 1 [] = jsSort [['a']]
    ∧ ((updateIPs (fun _ => true) (fun _ => false) allOk ⟨some 0, ∅, ∅, ∅⟩
          [[['b']], [['a']]] 1).skipped = false →
        (updateIPs (fun _ => true) (fun _ => false) allOk ⟨some 0, ∅, ∅, ∅⟩
            [[['b']], [['a']]] 1).st.ips = some 1
        ∧ getIPs (updateIPs (fun _ => true) (fun _ => false) allOk ⟨some 0, ∅, ∅, ∅⟩
              [[['b']], [['a']]] 1).st
            (updateIPs (fun _ => true) (fun _ => false) allOk ⟨some 0, ∅, ∅, ∅⟩
              [[['b']], [['a']]] 1).heap
          = (updateIPs (fun _ => true) (fun _ => false) allOk ⟨some 0, ∅, ∅, ∅⟩
              [[['b']], [['a']]] 1).heap.getD 1 [])
    ∧ (∀ h : Heap, getIPs freshUpd h = []) :=
  updateIPs_stores_reference (fun _ => true) (fun _ => false) [['b']] [['a']] ∅ ∅ ∅

/-! ### aclTimer (src/net2/Identity.js, aclTimer)

The node timer queue is modelled as a list of scheduled one-shot entries;
`setTimeout` appends a fresh entry (ids allocated by a counter) firing at
the requested epoch time and returns its id, `clearTimeout` removes the
entry with the stored id.  The deferred action `setPolicy("acl", nextState)`
is recorded in the entry as the policy field/value pair.  The source
schedules the timeout for `policy.time * 1000 - Date.now()` milliseconds,
i.e. it fires at epoch time `policy.time`; times are modelled in integral
epoch seconds.

`policy.hasOwnProperty("state")` is `stateSet`; a `policy.time` that is
absent or not numeric (`isNaN`) is modelled as `none`.
-/

structure TimerEntry where
  id : Nat
  time : Int
  field : String
  value : String
deriving DecidableEq

structure TimerState where
  aclTimer : Option Nat
  pending : List TimerEntry
  nextId : Nat
deriving DecidableEq

structure AclPolicy where
  stateSet : Bool
  state : String
  time : Option Int

def clearPrevTimer (st : TimerState) : TimerState :=
  match st.aclTimer with
  | some tid => { st with pending := st.pending.filter (fun e => e.id ≠ tid) }
  | none => st

def aclTimer (now : Int) (st : TimerState) (p : AclPolicy) : TimerState :=
  let st1 := clearPrevTimer st
  match p.time with
  | some t =>
    if p.stateSet ∧ t > now then
      { aclTimer := some st1.nextId,
        pending := st1.pending ++ [⟨st1.nextId, t, "acl", p.state⟩],
        nextId := st1.nextId + 1 }
    else st1
  | none => st1

/-- Well-formedness: pending ids and the stored timer handle were allocated
below the id counter. -/
def TimerWF (st : TimerState) : Prop :=
  (∀ e ∈ st.pending, e.id < st.nextId)
  ∧ (∀ i, st.aclTimer = some i → i < st.nextId)

theorem aclTimer_time_some (now : Int) (st : TimerState) (p : AclPolicy) (t : Int)
    (ht : p.time = some t) :
    aclTimer now st p
      = if p.stateSet ∧ t > now then
          { aclTimer := some (clearPrevTimer st).nextId,
            pending := (clearPrevTimer st).pending
              ++ [⟨(clearPrevTimer st).nextId, t, "acl", p.state⟩],
            nextId := (clearPrevTimer st).nextId + 1 }
        else clearPrevTimer st := by
  rw [aclTimer, ht]

theorem aclTimer_time_none (now : Int) (st : TimerState) (p : AclPolicy)
    (ht : p.time = none) :
    aclTimer now st p = clearPrevTimer st := by
  rw [aclTimer, ht]

/-- C8: aclTimer first cancels any previously scheduled timer for this
identity; when the policy carries a state and a numeric strictly-future
time, a one-shot entry firing at that deadline which sets the acl policy
field to policy.state is scheduled; otherwise no new entry is scheduled.
Consequently, of two back-to-back calls (both with future deadlines, from
an identity with no prior timer) only the second one's entry remains. -/
theorem aclTimer_cancel_and_schedule (now : Int) (st : TimerState) (p : AclPolicy)
    (hwf : TimerWF st) (hstate : p.stateSet = true) :
    (∀ pid, st.aclTimer = some pid → ∀ e ∈ (aclTimer now st p).pending, e.id ≠ pid)
    ∧ (∀ t, p.time = some t → t > now →
        ∃ i, (aclTimer now st p).aclTimer = some i
          ∧ (⟨i, t, "acl", p.state⟩ : TimerEntry) ∈ (aclTimer now st p).pending)
    ∧ ((p.time = none ∨ ∀ t, p.time = some t → ¬ t > now) →
        ∀ e ∈ (aclTimer now st p).pending, e ∈ st.pending)
    ∧ (∀ (now' : Int) (p1 p2 : AclPolicy) (t1 t2 : Int),
        p1.stateSet = true → p2.stateSet = true →
        p1.time = some t1 → t1 > now' → p2.time = some t2 → t2 > now' →
        (aclTimer now' (aclTimer now' ⟨none, [], 0⟩ p1) p2).pending
          = [⟨1, t2, "acl", p2.state⟩]) := by
  obtain ⟨hwf1, hwf2⟩ := hwf
  refine ⟨?_, ?_, ?_, ?_⟩
  · intro pid hpid e he
    have hlt : pid < st.nextId := hwf2 pid hpid
    have hclear : clearPrevTimer st
        = { st with pending := st.pending.filter (fun e => e.id ≠ pid) } := by
      rw [clearPrevTimer, hpid]
    match ht : p.time with
    | some t =>
      rw [aclTimer_time_some now st p t ht] at he
      by_cases hcond : p.stateSet ∧ t > now
      · rw [if_pos hcond, hclear] at he
        simp only [List.mem_append, List.mem_singleton] at he
        rcases he with he | he
        · simpa using (List.mem_filter.mp he).2
        · subst he
          simpa using Nat.ne_of_gt hlt
      · rw [if_neg hcond, hclear] at he
        simpa using (List.mem_filter.mp he).2
    | none =>
      rw [aclTimer_time_none now st p ht, hclear] at he
      simpa using (List.mem_filter.mp he).2
  · intro t ht hfut
    rw [aclTimer_time_some now st p t ht, if_pos ⟨hstate, hfut⟩]
    exact ⟨(clearPrevTimer st).nextId, rfl, by simp⟩
  · intro hno e he
    have hsub : ∀ x ∈ (clearPrevTimer st).pending, x ∈ st.pending := by
      intro x hx
      match hacl : st.aclTimer with
      | some tid =>
        have hc : clearPrevTimer st
            = { st with pending := st.pending.filter (fun e => e.id ≠ tid) } := by
          rw [clearPrevTimer, hacl]
        rw [hc] at hx
        exact (List.mem_filter.mp hx).1
      | none =>
        have hc : clearPrevTimer st = st := by
          rw [clearPrevTimer, hacl]
        rw [hc] at hx
        exact hx
    rcases hno with hnone | hfut
    · rw [aclTimer_time_none now st p hnone] at he
      exact hsub e he
    · match ht : p.time with
      | some t =>
        rw [aclTimer_time_some now st p t ht,
          if_neg (fun hc => hfut t ht hc.2)] at he
        exact hsub e he
      | none =>
        rw [aclTimer_time_none now st p ht] at he
        exact hsub e he
  · intro now' p1 p2 t1 t2 hs1 hs2 ht1 hf1 ht2 hf2
    have h1 : aclTimer now' ⟨none, [], 0⟩ p1
        = ⟨some 0, [⟨0, t1, "acl", p1.state⟩], 1⟩ := by
      rw [aclTimer_time_some now' _ p1 t1 ht1, if_pos ⟨hs1, hf1⟩]
      rfl
    rw [h1, aclTimer_time_some now' _ p2 t2 ht2, if_pos ⟨hs2, hf2⟩]
    rfl

theorem aclTimer_cancel_and_schedule_witness :
    TimerWF ⟨none, [], 0⟩
    ∧ ((∀ pid, (⟨none, [], 0⟩ : TimerState).aclTimer = some pid →
          ∀ e ∈ (aclTimer 100 ⟨none, [], 0⟩ ⟨true, "block", some 105⟩).pending, e.id ≠ pid)
      ∧ (∀ t, (⟨true, "block", some 105⟩ : AclPolicy).time = some t → t > 100 →
          ∃ i, (aclTimer 100 ⟨none, [], 0⟩ ⟨true, "block", some 105⟩).aclTimer = some i
            ∧ (⟨i, t, "acl", "block"⟩ : TimerEntry)
                ∈ (aclTimer 100 ⟨none, [], 0⟩ ⟨true, "block", some 105⟩).pending)
      ∧ (((⟨true, "block", some 105⟩ : AclPolicy).time = none
            ∨ ∀ t, (⟨true, "block", some 105⟩ : AclPolicy).time = some t → ¬ t > 100) →
          ∀ e ∈ (aclTimer 100 ⟨none, [], 0⟩ ⟨true, "block", some 105⟩).pending,
            e ∈ (⟨none, [], 0⟩ : TimerState).pending)
      ∧ (∀ (now' : Int) (p1 p2 : AclPolicy) (t1 t2 : Int),
          p1.stateSet = true → p2.stateSet = true →
          p1.time = some t1 → t1 > now' → p2.time = some t2 → t2 > now' →
          (aclTimer now' (aclTimer now' ⟨none, [], 0⟩ p1) p2).pending
            = [⟨1, t2, "acl", p2.state⟩])) :=
  ⟨⟨by simp, by simp⟩,
    aclTimer_cancel_and_schedule 100 ⟨none, [], 0⟩ ⟨true, "block", some 105⟩
      ⟨by simp, by simp⟩ rfl⟩

/-! ### Random subnet allocator
(src/extension/vpnclient/docker/DockerBaseVPNClient.js, _generateRamdomNetwork)

IPv4 addresses are modelled as `Nat` below 2^32.  The three ranges and
their random-bit budgets mirror `ipRangeRandomMap`; a candidate is
`start + (randomDraw mod 2^bits) * 256`, i.e. aligned to a /24 boundary
inside the range, exactly as `Math.floor(Math.random() * 2^bits) * 256`
produces.  The stream of random draws is passed explicitly; the source
loops forever, so the model recurses on the (arbitrarily long) stream and
returns none when it is exhausted.
-/

/-- Membership of an address in a CIDR block given as (base, maskLength). -/
abbrev inCidr (addr base len : Nat) : Prop :=
  addr / 2 ^ (32 - len) = base / 2 ^ (32 - len)

/-- Modelled from the spec: `sysManager.inMySubnets4` belongs to the
out-of-scope "system network-interface inventory" collaborator
(SysManager.js is not part of the shown sources).  Per its name and its
use on a bare address string, it reports whether the given IPv4 address
lies within one of the gateway's locally-attached subnets, which are
passed here as a list of (base, maskLength) pairs. -/
def inMySubnets4 (locals : List (Nat × Nat)) (addr : Nat) : Bool :=
  locals.any (fun s => decide (inCidr addr s.1 s.2))

/-- `ipRangeRandomMap`: 10.0.0.0/8 with 16 random bits, 172.16.0.0/12 with
12 bits, 192.168.0.0/16 with 8 bits. -/
def ipRangeRandomMap : List (Nat × Nat) :=
  [(167772160, 16), (2886729728, 12), (3232235520, 8)]

/-- Source name: `_generateRamdomNetwork` (typo preserved, leading
underscore dropped).  Returns the base address of the chosen /24. -/
def generateRamdomNetwork (locals : List (Nat × Nat)) :
    List Nat → Nat → Option Nat
  | [], _ => none
  | d :: ds, index =>
    let i := index % 3
    let p := ipRangeRandomMap.getD i (0, 0)
    let subnet := p.1 + d % 2 ^ p.2 * 256
    if inMySubnets4 locals subnet then generateRamdomNetwork locals ds (i + 1)
    else some subnet

/-- C4 counterexample: with the single locally-attached subnet
10.0.0.128/25, the allocator returns the /24 based at 10.0.0.0 (the base
address is not inside the /25, so the membership test passes), yet that
/24 intersects the locally-attached subnet: 10.0.0.128 lies in both. -/
theorem generateRamdomNetwork_can_overlap_local :
    generateRamdomNetwork [(167772288, 25)] [0] 0 = some 167772160
    ∧ inCidr 167772288 167772160 24
    ∧ inCidr 167772288 167772288 25 := by
  decide

theorem inCidr_of_sub24 (a cand base len : Nat) (hlen : len ≤ 24)
    (h24 : inCidr a cand 24) (hin : inCidr a base len) : inCidr cand base len := by
  have hsplit : (32 - len) = 8 + (24 - len) := by omega
  have key : ∀ x : Nat, x / 2 ^ (32 - len) = x / 2 ^ 8 / 2 ^ (24 - len) := by
    intro x
    rw [Nat.div_div_eq_div_mul, ← pow_add, ← hsplit]
  have h8 : a / 2 ^ 8 = cand / 2 ^ 8 := h24
  show cand / 2 ^ (32 - len) = base / 2 ^ (32 - len)
  calc cand / 2 ^ (32 - len)
      = cand / 2 ^ 8 / 2 ^ (24 - len) := key cand
    _ = a / 2 ^ 8 / 2 ^ (24 - len) := by rw [h8]
    _ = a / 2 ^ (32 - len) := (key a).symm
    _ = base / 2 ^ (32 - len) := hin

/-- C4 amended: whenever the allocator returns a /24, its base address is
not contained in any locally-attached subnet; consequently the returned
/24 does not intersect any locally-attached subnet whose mask length is at
most 24 — but (per the counterexample) it may still intersect a
locally-attached subnet narrower than /24. -/
theorem generateRamdomNetwork_base_not_local (locals : List (Nat × Nat))
    (draws : List Nat) (index cand : Nat)
    (hres : generateRamdomNetwork locals draws index = some cand) :
    (∀ s ∈ locals, ¬ inCidr cand s.1 s.2)
    ∧ ∀ s ∈ locals, s.2 ≤ 24 → ∀ a, inCidr a cand 24 → ¬ inCidr a s.1 s.2 := by
  have hbase : ∀ s ∈ locals, ¬ inCidr cand s.1 s.2 := by
    induction draws generalizing index with
    | nil => simp [generateRamdomNetwork] at hres
    | cons d ds ih =>
      rw [generateRamdomNetwork] at hres
      by_cases hm : inMySubnets4 locals
          ((ipRangeRandomMap.getD (index % 3) (0, 0)).1
            + d % 2 ^ (ipRangeRandomMap.getD (index % 3) (0, 0)).2 * 256) = true
      · rw [if_pos hm] at hres
        exact ih _ hres
      · rw [if_neg hm] at hres
        obtain rfl : _ = cand := Option.some.inj hres
        intro s hs hc
        apply hm
        simp only [inMySubnets4, List.any_eq_true]
        exact ⟨s, hs, decide_eq_true hc⟩
  refine ⟨hbase, fun s hs hlen a h24 hin => hbase s hs ?_⟩
  exact inCidr_of_sub24 a cand s.1 s.2 hlen h24 hin

theorem generateRamdomNetwork_base_not_local_witness :
    generateRamdomNetwork [(3232235520, 16)] [0] 0 = some 167772160
    ∧ ((∀ s ∈ [((3232235520 : Nat), (16 : Nat))], ¬ inCidr 167772160 s.1 s.2)
      ∧ ∀ s ∈ [((3232235520 : Nat), (16 : Nat))], s.2 ≤ 24 →
          ∀ a, inCidr a 167772160 24 → ¬ inCidr a s.1 s.2) :=
  ⟨by decide,
    generateRamdomNetwork_base_not_local [(3232235520, 16)] [0] 0 167772160 (by decide)⟩

/-! ### Link-Up Poller
(src/extension/vpnclient/docker/DockerBaseVPNClient.js, _start, lines
142-156)

Each loop iteration reads the carrier file of the container's interface
(`carrier t`, the trimmed content, or none when the read fails) and, on
carrier "1", re-reads the subnet file to resolve the remote IP
(`remoteIP t`) and — only if that is resolvable — injects the route into
the wan_routable table, then breaks.  Otherwise it sleeps 1s and retries,
at most 30 times.  The result records how many carrier checks ran and the
address injected into wan_routable, if any.
-/

def pollAux (carrier remoteIP : Nat → Option String) (t : Nat) :
    Nat → Nat × Option String
  | 0 => (0, none)
  | fuel + 1 =>
    if carrier t = some "1" then
      (1, remoteIP t)
    else
      let r := pollAux carrier remoteIP (t + 1) fuel
      (r.1 + 1, r.2)

def linkUpPoll (carrier remoteIP : Nat → Option String) : Nat × Option String :=
  pollAux carrier remoteIP 0 30

/-- C5 counterexample: the carrier signal is present from the very first
attempt (readiness observed within the budget), but the remote IP is not
resolvable, so no route is injected into wan_routable — the claimed "if
and only if" fails in the only-if .. then direction. -/
theorem linkUpPoll_ready_without_route :
    (fun _ : Nat => some "1") 0 = some "1"
    ∧ (linkUpPoll (fun _ => some "1") (fun _ => none)).1 = 1
    ∧ (linkUpPoll (fun _ => some "1") (fun _ => none)).2 = none := by
  refine ⟨rfl, ?_, ?_⟩ <;> rfl

theorem pollAux_spec (carrier remoteIP : Nat → Option String) :
    ∀ (fuel t : Nat),
      (pollAux carrier remoteIP t fuel).1 ≤ fuel
      ∧ ∀ ip, ((pollAux carrier remoteIP t fuel).2 = some ip ↔
          ∃ k, k < fuel ∧ carrier (t + k) = some "1" ∧ remoteIP (t + k) = some ip
            ∧ ∀ j, j < k → carrier (t + j) ≠ some "1") := by
  intro fuel
  induction fuel with
  | zero =>
    intro t
    refine ⟨Nat.le_refl 0, fun ip => ?_⟩
    simp [pollAux]
  | succ n ih =>
    intro t
    by_cases hc : carrier t = some "1"
    · rw [pollAux, if_pos hc]
      refine ⟨Nat.one_le_iff_ne_zero.mpr (Nat.succ_ne_zero n), fun ip => ?_⟩
      constructor
      · intro hr
        exact ⟨0, Nat.succ_pos n, by simpa using hc, by simpa using hr, by omega⟩
      · rintro ⟨k, hk, hck, hrk, hmin⟩
        rcases Nat.eq_zero_or_pos k with rfl | hkpos
        · simpa using hrk
        · exact absurd (by simpa using hc) (by simpa using hmin 0 hkpos)
    · rw [pollAux, if_neg hc]
      obtain ⟨ihc, ihr⟩ := ih (t + 1)
      refine ⟨by simpa using Nat.succ_le_succ ihc, fun ip => ?_⟩
      rw [show ((pollAux carrier remoteIP (t + 1) n).1 + 1,
          (pollAux carrier remoteIP (t + 1) n).2).2
        = (pollAux carrier remoteIP (t + 1) n).2 from rfl]
      rw [ihr ip]
      constructor
      · rintro ⟨k, hk, hck, hrk, hmin⟩
        refine ⟨k + 1, by omega, by simpa [Nat.add_assoc, Nat.add_comm 1 k] using hck,
          by simpa [Nat.add_assoc, Nat.add_comm 1 k] using hrk, ?_⟩
        intro j hj
        rcases Nat.eq_zero_or_pos j with rfl | hjpos
        · simpa using hc
        · have : j - 1 < k := by omega
          have hmj := hmin (j - 1) this
          have hidx : t + 1 + (j - 1) = t + j := by omega
          rwa [hidx] at hmj
      · rintro ⟨k, hk, hck, hrk, hmin⟩
        rcases Nat.eq_zero_or_pos k with rfl | hkpos
        · exact absurd (by simpa using hck) hc
        · refine ⟨k - 1, by omega, ?_, ?_, ?_⟩
          · have hidx : t + 1 + (k - 1) = t + k := by omega
            rwa [hidx]
          · have hidx : t + 1 + (k - 1) = t + k := by omega
            rwa [hidx]
          · intro j hj
            have hidx : t + 1 + j = t + (j + 1) := by omega
            rw [hidx]
            exact hmin (j + 1) (by omega)

/-- C5 amended: the Link-Up Poller performs at most 30 readiness checks and
always terminates; the route-injection side effect into wan_routable occurs
exactly when, at the first attempt (within the 30-attempt budget) at which
carrier "1" is observed, the remote IP is also resolvable — readiness alone
does not suffice (see the counterexample). -/
theorem linkUpPoll_bounded (carrier remoteIP : Nat → Option String) :
    (linkUpPoll carrier remoteIP).1 ≤ 30
    ∧ ∀ ip, ((linkUpPoll carrier remoteIP).2 = some ip ↔
        ∃ k, k < 30 ∧ carrier k = some "1" ∧ remoteIP k = some ip
          ∧ ∀ j, j < k → carrier j ≠ some "1") := by
  obtain ⟨hc, hr⟩ := pollAux_spec carrier remoteIP 30 0
  refine ⟨hc, fun ip => ?_⟩
  rw [linkUpPoll, hr ip]
  simp

theorem linkUpPoll_bounded_witness :
    (linkUpPoll (fun _ => some "0") (fun _ => some "10.1.2.2")).1 ≤ 30
    ∧ ∀ ip, ((linkUpPoll (fun _ => some "0") (fun _ => some "10.1.2.2")).2 = some ip ↔
        ∃ k, k < 30 ∧ (fun _ : Nat => some "0") k = some "1"
          ∧ (fun _ : Nat => some "10.1.2.2") k = some ip
          ∧ ∀ j, j < k → (fun _ : Nat => some "0") j ≠ some "1") :=
  linkUpPoll_bounded (fun _ => some "0") (fun _ => some "10.1.2.2")
